import Mathlib

/-!
Verification of the request-encoding layer of `couchbase-rs`
(`src/couchbase/src/instance/request.rs`).

The layer translates five high-level key-value operations (get, upsert,
insert, replace, remove) into calls against the native `libcouchbase`
C API.  We embed the layer shallowly: each Rust request struct becomes a
Lean structure; `encode` becomes a function from the request (plus the
native instance handle and an oracle supplying the status codes the
native calls return) to an optional effect, where `none` models a panic
raised by `CString::new(..).expect(..)` and `some` carries the ordered
trace of native calls made together with the list of owned resources the
function drops on exit.  Pointers that matter only as opaque tokens
(the cookie produced by `Box::into_raw`, the instance handle) are
modelled symbolically.
-/

namespace CouchbaseRs

/-- Byte strings: the UTF-8 bytes of a Rust `String`, or a `Vec<u8>`.
`len()` on either is the length of this list. -/
abbrev Bytes := List Nat

/-- A C string as produced by `std::ffi::CString`: the original bytes with
the NUL terminator appended.  `bytes` is the full allocated buffer. -/
structure CStr where
  bytes : Bytes
deriving DecidableEq, Repr

/-- Model of `CString::new`: fails (with `NulError`, which `expect` turns into a
panic) exactly when the supplied bytes contain a NUL byte; otherwise
appends the NUL terminator. -/
def cstringNew (b : Bytes) : Option CStr :=
  if b.contains 0 then none else some ⟨b ++ [0]⟩

/-- Model of `std::time::Duration`: seconds (a `u64`) and subsecond nanoseconds
(kept below `10^9` by the Rust type; nothing below depends on that bound). -/
structure Duration where
  secs : Nat
  nanos : Nat
deriving DecidableEq, Repr

/-- Model of `Duration::as_millis`: total whole milliseconds,
`secs * 1000 + nanos / 1_000_000` (a `u128`; the true value never
overflows `u128`, so plain `Nat` arithmetic is exact). -/
def Duration.as_millis (d : Duration) : Nat :=
  d.secs * 1000 + d.nanos / 1000000

/-- The Rust cast `as u32`: truncation modulo `2^32`. -/
def u32cast (n : Nat) : Nat := n % 2 ^ 32

/-- Opaque stand-in for the payload type `GetResult` from `crate::result`;
the encoding layer never inspects it. -/
structure GetResult where
  token : Nat
deriving DecidableEq, Repr

/-- Opaque stand-in for the payload type `MutationResult` from
`crate::result`; the encoding layer never inspects it. -/
structure MutationResult where
  token : Nat
deriving DecidableEq, Repr

/-- Opaque stand-in for `futures::sync::oneshot::Sender<α>`; the encoding
layer moves it around but never inspects or uses it. -/
structure Sender (α : Type) where
  token : Nat
deriving DecidableEq, Repr

/-- Modelled from the spec: `GetOptions` lives in `crate::options`, which
the excerpt treats as an external collaborator; the spec records only
that each options struct exposes an optional timeout read via
`timeout()`. -/
structure GetOptions where
  timeout : Option Duration
deriving DecidableEq, Repr

/-- Modelled from the spec: `UpsertOptions` from `crate::options`,
exposing only the optional timeout read via `timeout()`. -/
structure UpsertOptions where
  timeout : Option Duration
deriving DecidableEq, Repr

/-- Modelled from the spec: `InsertOptions` from `crate::options`,
exposing only the optional timeout read via `timeout()`. -/
structure InsertOptions where
  timeout : Option Duration
deriving DecidableEq, Repr

/-- Modelled from the spec: `ReplaceOptions` from `crate::options`,
exposing only the optional timeout read via `timeout()`. -/
structure ReplaceOptions where
  timeout : Option Duration
deriving DecidableEq, Repr

/-- Modelled from the spec: `RemoveOptions` from `crate::options`,
exposing only the optional timeout read via `timeout()`. -/
structure RemoveOptions where
  timeout : Option Duration
deriving DecidableEq, Repr

/-- A heap value placed behind `Box::new` inside `encode`: the boxed
completion sender (one variant per sender payload type occurring in the
file). -/
inductive Boxed where
  | getSender (s : Sender (Option GetResult))
  | mutSender (s : Sender MutationResult)
deriving DecidableEq, Repr

/-- A raw pointer as produced by `Box::into_raw`, identified symbolically
by the boxed value it points at. -/
structure RawPtr where
  pointee : Boxed
deriving DecidableEq, Repr

/-- Model of `Box::into_raw` on a freshly boxed value: ownership leaves Rust; the
result is the raw pointer (cast to `*mut c_void` when used as a cookie). -/
def boxIntoRaw (b : Boxed) : RawPtr := ⟨b⟩

/-- The `lcb_STORE_OPERATION` constants used by the file. -/
inductive StoreOperation where
  | LCB_STORE_UPSERT
  | LCB_STORE_ADD
  | LCB_STORE_REPLACE
deriving DecidableEq, Repr

/-- One native `libcouchbase` call, with the data-bearing arguments the
Rust code passes: key/value buffers are the C strings whose pointers are
passed, lengths are the separately passed `usize` lengths, `inst` is the
`*mut lcb_INSTANCE` handle (symbolically a number) and `cookie` the
opaque `*mut c_void` completion pointer. -/
inductive NativeCall where
  | lcb_cmdget_create
  | lcb_cmdget_key (key : CStr) (nkey : Nat)
  | lcb_cmdget_timeout (ms : Nat)
  | lcb_get (inst : Nat) (cookie : RawPtr)
  | lcb_cmdstore_create (op : StoreOperation)
  | lcb_cmdstore_key (key : CStr) (nkey : Nat)
  | lcb_cmdstore_flags (flags : Nat)
  | lcb_cmdstore_value (value : CStr) (nvalue : Nat)
  | lcb_cmdstore_timeout (ms : Nat)
  | lcb_store (inst : Nat) (cookie : RawPtr)
  | lcb_cmdremove_create
  | lcb_cmdremove_key (key : CStr) (nkey : Nat)
  | lcb_cmdremove_timeout (ms : Nat)
  | lcb_remove (inst : Nat) (cookie : RawPtr)
deriving DecidableEq, Repr

/-- An owned resource that `encode` may drop when it returns: the
`CString` temporaries, or (never, in this code) one of the senders. -/
inductive Owned where
  | cstr (c : CStr)
  | getSender (s : Sender (Option GetResult))
  | mutSender (s : Sender MutationResult)
deriving DecidableEq, Repr

/-- The observable effect of one successful run of `encode`: the ordered
trace of native calls, and the owned resources dropped on exit. -/
structure EncodeEffect where
  calls : List NativeCall
  dropped : List Owned
deriving DecidableEq, Repr

/-- The status codes the native library returns from each call, in call
order; the Rust code binds none of them, so they are discarded below. -/
abbrev StatusOracle := Nat → Int

/-- Model of `GetRequest`: completion sender, document id, optional options. -/
structure GetRequest where
  sender : Sender (Option GetResult)
  id : Bytes
  options : Option GetOptions
deriving DecidableEq, Repr

/-- Model of `GetRequest::new`: stores the three arguments verbatim. -/
def GetRequest.new (sender : Sender (Option GetResult)) (id : Bytes)
    (options : Option GetOptions) : GetRequest :=
  { sender, id, options }

/-- Model of `<GetRequest as InstanceRequest>::encode`: captures `id.len()`,
converts the id to a `CString` (panicking on a NUL byte), boxes the
sender and leaks it via `Box::into_raw` as the cookie, then creates the
get command, sets the key, optionally sets the timeout, and issues
`lcb_get`.  Statuses from the native calls are discarded. -/
def GetRequest.encode (self : GetRequest) (inst : Nat)
    (oracle : StatusOracle) : Option EncodeEffect :=
  let id_len := self.id.length
  match cstringNew self.id with
  | none => none
  | some id_encoded =>
    let sender_boxed := Boxed.getSender self.sender
    let cookie := boxIntoRaw sender_boxed
    let _status_create := oracle 0
    let _status_key := oracle 1
    let timeout_calls : List NativeCall :=
      match self.options with
      | some options =>
        match options.timeout with
        | some timeout =>
          let _status_timeout := oracle 2
          [.lcb_cmdget_timeout (u32cast timeout.as_millis)]
        | none => []
      | none => []
    let _status_get := oracle 3
    some
      { calls := [.lcb_cmdget_create, .lcb_cmdget_key id_encoded id_len]
          ++ timeout_calls ++ [.lcb_get inst cookie]
        dropped := [.cstr id_encoded] }

/-- Model of `UpsertRequest`: completion sender, document id, content bytes,
flags, optional options. -/
structure UpsertRequest where
  sender : Sender MutationResult
  id : Bytes
  content : Bytes
  flags : Nat
  options : Option UpsertOptions
deriving DecidableEq, Repr

/-- Model of `UpsertRequest::new`: stores the five arguments verbatim. -/
def UpsertRequest.new (sender : Sender MutationResult) (id : Bytes)
    (content : Bytes) (flags : Nat) (options : Option UpsertOptions) :
    UpsertRequest :=
  { sender, id, content, flags, options }

/-- Model of `<UpsertRequest as InstanceRequest>::encode`: captures `id.len()`,
converts the id to a `CString` (panicking on a NUL byte), boxes and
leaks the sender as the cookie, captures `content.len()`, converts the
content to a `CString` (panicking on a NUL byte, and later leaked via
`into_raw`), then creates the store command with `LCB_STORE_UPSERT`,
sets key, flags and value, optionally sets the timeout, and issues
`lcb_store`.  Statuses from the native calls are discarded. -/
def UpsertRequest.encode (self : UpsertRequest) (inst : Nat)
    (oracle : StatusOracle) : Option EncodeEffect :=
  let id_len := self.id.length
  match cstringNew self.id with
  | none => none
  | some id_encoded =>
    let sender_boxed := Boxed.mutSender self.sender
    let cookie := boxIntoRaw sender_boxed
    let value_len := self.content.length
    match cstringNew self.content with
    | none => none
    | some value =>
      let _status_create := oracle 0
      let _status_key := oracle 1
      let _status_flags := oracle 2
      let _status_value := oracle 3
      let timeout_calls : List NativeCall :=
        match self.options with
        | some options =>
          match options.timeout with
          | some timeout =>
            let _status_timeout := oracle 4
            [.lcb_cmdstore_timeout (u32cast timeout.as_millis)]
          | none => []
        | none => []
      let _status_store := oracle 5
      some
        { calls := [.lcb_cmdstore_create .LCB_STORE_UPSERT,
              .lcb_cmdstore_key id_encoded id_len,
              .lcb_cmdstore_flags self.flags,
              .lcb_cmdstore_value value value_len]
            ++ timeout_calls ++ [.lcb_store inst cookie]
          dropped := [.cstr id_encoded] }

/-- Model of `InsertRequest`: completion sender, document id, content bytes,
flags, optional options. -/
structure InsertRequest where
  sender : Sender MutationResult
  id : Bytes
  content : Bytes
  flags : Nat
  options : Option InsertOptions
deriving DecidableEq, Repr

/-- Model of `InsertRequest::new`: stores the five arguments verbatim. -/
def InsertRequest.new (sender : Sender MutationResult) (id : Bytes)
    (content : Bytes) (flags : Nat) (options : Option InsertOptions) :
    InsertRequest :=
  { sender, id, content, flags, options }

/-- Model of `<InsertRequest as InstanceRequest>::encode`: identical to the upsert
encoding except that the store command is created with
`LCB_STORE_ADD`. -/
def InsertRequest.encode (self : InsertRequest) (inst : Nat)
    (oracle : StatusOracle) : Option EncodeEffect :=
  let id_len := self.id.length
  match cstringNew self.id with
  | none => none
  | some id_encoded =>
    let sender_boxed := Boxed.mutSender self.sender
    let cookie := boxIntoRaw sender_boxed
    let value_len := self.content.length
    match cstringNew self.content with
    | none => none
    | some value =>
      let _status_create := oracle 0
      let _status_key := oracle 1
      let _status_flags := oracle 2
      let _status_value := oracle 3
      let timeout_calls : List NativeCall :=
        match self.options with
        | some options =>
          match options.timeout with
          | some timeout =>
            let _status_timeout := oracle 4
            [.lcb_cmdstore_timeout (u32cast timeout.as_millis)]
          | none => []
        | none => []
      let _status_store := oracle 5
      some
        { calls := [.lcb_cmdstore_create .LCB_STORE_ADD,
              .lcb_cmdstore_key id_encoded id_len,
              .lcb_cmdstore_flags self.flags,
              .lcb_cmdstore_value value value_len]
            ++ timeout_calls ++ [.lcb_store inst cookie]
          dropped := [.cstr id_encoded] }

/-- Model of `ReplaceRequest`: completion sender, document id, content bytes,
flags, optional options. -/
structure ReplaceRequest where
  sender : Sender MutationResult
  id : Bytes
  content : Bytes
  flags : Nat
  options : Option ReplaceOptions
deriving DecidableEq, Repr

/-- Model of `ReplaceRequest::new`: stores the five arguments verbatim. -/
def ReplaceRequest.new (sender : Sender MutationResult) (id : Bytes)
    (content : Bytes) (flags : Nat) (options : Option ReplaceOptions) :
    ReplaceRequest :=
  { sender, id, content, flags, options }

/-- Model of `<ReplaceRequest as InstanceRequest>::encode`: identical to the
upsert encoding except that the store command is created with
`LCB_STORE_REPLACE`. -/
def ReplaceRequest.encode (self : ReplaceRequest) (inst : Nat)
    (oracle : StatusOracle) : Option EncodeEffect :=
  let id_len := self.id.length
  match cstringNew self.id with
  | none => none
  | some id_encoded =>
    let sender_boxed := Boxed.mutSender self.sender
    let cookie := boxIntoRaw sender_boxed
    let value_len := self.content.length
    match cstringNew self.content with
    | none => none
    | some value =>
      let _status_create := oracle 0
      let _status_key := oracle 1
      let _status_flags := oracle 2
      let _status_value := oracle 3
      let timeout_calls : List NativeCall :=
        match self.options with
        | some options =>
          match options.timeout with
          | some timeout =>
            let _status_timeout := oracle 4
            [.lcb_cmdstore_timeout (u32cast timeout.as_millis)]
          | none => []
        | none => []
      let _status_store := oracle 5
      some
        { calls := [.lcb_cmdstore_create .LCB_STORE_REPLACE,
              .lcb_cmdstore_key id_encoded id_len,
              .lcb_cmdstore_flags self.flags,
              .lcb_cmdstore_value value value_len]
            ++ timeout_calls ++ [.lcb_store inst cookie]
          dropped := [.cstr id_encoded] }

/-- Model of `RemoveRequest`: completion sender, document id, optional options. -/
structure RemoveRequest where
  sender : Sender MutationResult
  id : Bytes
  options : Option RemoveOptions
deriving DecidableEq, Repr

/-- Model of `RemoveRequest::new`: stores the three arguments verbatim. -/
def RemoveRequest.new (sender : Sender MutationResult) (id : Bytes)
    (options : Option RemoveOptions) : RemoveRequest :=
  { sender, id, options }

/-- Model of `<RemoveRequest as InstanceRequest>::encode`: captures `id.len()`,
converts the id to a `CString` (panicking on a NUL byte), boxes and
leaks the sender as the cookie, then creates the remove command, sets
the key, optionally sets the timeout, and issues `lcb_remove`.
Statuses from the native calls are discarded. -/
def RemoveRequest.encode (self : RemoveRequest) (inst : Nat)
    (oracle : StatusOracle) : Option EncodeEffect :=
  let id_len := self.id.length
  match cstringNew self.id with
  | none => none
  | some id_encoded =>
    let sender_boxed := Boxed.mutSender self.sender
    let cookie := boxIntoRaw sender_boxed
    let _status_create := oracle 0
    let _status_key := oracle 1
    let timeout_calls : List NativeCall :=
      match self.options with
      | some options =>
        match options.timeout with
        | some timeout =>
          let _status_timeout := oracle 2
          [.lcb_cmdremove_timeout (u32cast timeout.as_millis)]
        | none => []
      | none => []
    let _status_remove := oracle 3
    some
      { calls := [.lcb_cmdremove_create, .lcb_cmdremove_key id_encoded id_len]
          ++ timeout_calls ++ [.lcb_remove inst cookie]
        dropped := [.cstr id_encoded] }

/-- The closed world of implementors of the `InstanceRequest` trait in
the file: exactly the five request types, one constructor per `impl`
block. -/
inductive AnyRequest where
  | get (r : GetRequest)
  | upsert (r : UpsertRequest)
  | insert (r : InsertRequest)
  | replace (r : ReplaceRequest)
  | remove (r : RemoveRequest)
deriving DecidableEq, Repr

/-- Trait dispatch of `InstanceRequest::encode` over the five
implementors. -/
def AnyRequest.encode : AnyRequest → Nat → StatusOracle → Option EncodeEffect
  | .get r, inst, oracle => r.encode inst oracle
  | .upsert r, inst, oracle => r.encode inst oracle
  | .insert r, inst, oracle => r.encode inst oracle
  | .replace r, inst, oracle => r.encode inst oracle
  | .remove r, inst, oracle => r.encode inst oracle

/-- The id bytes of a request (the field every request type has). -/
def AnyRequest.idBytes : AnyRequest → Bytes
  | .get r => r.id
  | .upsert r => r.id
  | .insert r => r.id
  | .replace r => r.id
  | .remove r => r.id

/-- The content bytes of a request: present exactly for the three store
request types. -/
def AnyRequest.contentBytes : AnyRequest → Option Bytes
  | .get _ => none
  | .upsert r => some r.content
  | .insert r => some r.content
  | .replace r => some r.content
  | .remove _ => none

/-- The timeout a request carries: `Some` exactly when the options field
is `Some` and the `timeout()` of that options value is `Some`. -/
def AnyRequest.timeoutOpt : AnyRequest → Option Duration
  | .get r => r.options.bind GetOptions.timeout
  | .upsert r => r.options.bind UpsertOptions.timeout
  | .insert r => r.options.bind InsertOptions.timeout
  | .replace r => r.options.bind ReplaceOptions.timeout
  | .remove r => r.options.bind RemoveOptions.timeout

/-- The boxed completion sender `encode` builds from a request. -/
def AnyRequest.senderBoxed : AnyRequest → Boxed
  | .get r => .getSender r.sender
  | .upsert r => .mutSender r.sender
  | .insert r => .mutSender r.sender
  | .replace r => .mutSender r.sender
  | .remove r => .mutSender r.sender

/-- The completion sender of the request viewed as an ownable resource. -/
def AnyRequest.senderOwned : AnyRequest → Owned
  | .get r => .getSender r.sender
  | .upsert r => .mutSender r.sender
  | .insert r => .mutSender r.sender
  | .replace r => .mutSender r.sender
  | .remove r => .mutSender r.sender

/-- Whether a native call is one of the three timeout setters. -/
def NativeCall.isTimeout : NativeCall → Bool
  | .lcb_cmdget_timeout _ => true
  | .lcb_cmdstore_timeout _ => true
  | .lcb_cmdremove_timeout _ => true
  | _ => false

/-- Whether a native call is one of the three command constructors. -/
def NativeCall.isCreate : NativeCall → Bool
  | .lcb_cmdget_create => true
  | .lcb_cmdstore_create _ => true
  | .lcb_cmdremove_create => true
  | _ => false

/-- Whether a native call is one of the three scheduling (issuing)
calls. -/
def NativeCall.isIssue : NativeCall → Bool
  | .lcb_get _ _ => true
  | .lcb_store _ _ => true
  | .lcb_remove _ _ => true
  | _ => false

/-- The key buffer and key length passed by a key-setter call. -/
def NativeCall.keyArgs : NativeCall → Option (CStr × Nat)
  | .lcb_cmdget_key k n => some (k, n)
  | .lcb_cmdstore_key k n => some (k, n)
  | .lcb_cmdremove_key k n => some (k, n)
  | _ => none

/-- The value buffer and value length passed by a value-setter call. -/
def NativeCall.valueArgs : NativeCall → Option (CStr × Nat)
  | .lcb_cmdstore_value v n => some (v, n)
  | _ => none

/-- The millisecond argument passed by a timeout-setter call. -/
def NativeCall.timeoutArg : NativeCall → Option Nat
  | .lcb_cmdget_timeout m => some m
  | .lcb_cmdstore_timeout m => some m
  | .lcb_cmdremove_timeout m => some m
  | _ => none

/-- Normalise the address-valued arguments (instance handle and cookie
pointer) of the issuing calls to fixed dummies, keeping every
data-valued argument. -/
def NativeCall.eraseAddrs : NativeCall → NativeCall
  | .lcb_get _ _ => .lcb_get 0 ⟨.getSender ⟨0⟩⟩
  | .lcb_store _ _ => .lcb_store 0 ⟨.mutSender ⟨0⟩⟩
  | .lcb_remove _ _ => .lcb_remove 0 ⟨.mutSender ⟨0⟩⟩
  | c => c

/-- Two requests of the same type agreeing on id, content, flags and
options (the completion senders may differ). -/
def AnyRequest.sameData : AnyRequest → AnyRequest → Prop
  | .get a, .get b => a.id = b.id ∧ a.options = b.options
  | .upsert a, .upsert b =>
      a.id = b.id ∧ a.content = b.content ∧ a.flags = b.flags ∧
        a.options = b.options
  | .insert a, .insert b =>
      a.id = b.id ∧ a.content = b.content ∧ a.flags = b.flags ∧
        a.options = b.options
  | .replace a, .replace b =>
      a.id = b.id ∧ a.content = b.content ∧ a.flags = b.flags ∧
        a.options = b.options
  | .remove a, .remove b => a.id = b.id ∧ a.options = b.options
  | _, _ => False

/-- Two requests of the same type agreeing on every field except
possibly the options field. -/
def AnyRequest.sameModuloOptions : AnyRequest → AnyRequest → Prop
  | .get a, .get b => a.sender = b.sender ∧ a.id = b.id
  | .upsert a, .upsert b =>
      a.sender = b.sender ∧ a.id = b.id ∧ a.content = b.content ∧
        a.flags = b.flags
  | .insert a, .insert b =>
      a.sender = b.sender ∧ a.id = b.id ∧ a.content = b.content ∧
        a.flags = b.flags
  | .replace a, .replace b =>
      a.sender = b.sender ∧ a.id = b.id ∧ a.content = b.content ∧
        a.flags = b.flags
  | .remove a, .remove b => a.sender = b.sender ∧ a.id = b.id
  | _, _ => False

/-- Closed form of `GetRequest.encode`. -/
theorem getRequest_encode_eq (g : GetRequest) (inst : Nat)
    (oracle : StatusOracle) :
    g.encode inst oracle =
      if g.id.contains 0 then none
      else some
        { calls := [.lcb_cmdget_create,
              .lcb_cmdget_key ⟨g.id ++ [0]⟩ g.id.length]
            ++ (match g.options.bind GetOptions.timeout with
                | some t => [.lcb_cmdget_timeout (u32cast t.as_millis)]
                | none => [])
            ++ [.lcb_get inst (boxIntoRaw (.getSender g.sender))]
          dropped := [.cstr ⟨g.id ++ [0]⟩] } := by
  unfold GetRequest.encode cstringNew
  cases h : g.id.contains 0 with
  | false =>
    simp only [h, Bool.false_eq_true, if_false]
    cases ho : g.options with
    | none => rfl
    | some o => cases o.timeout <;> simp [Option.bind]
  | true => simp [h]

/-- Closed form of `UpsertRequest.encode`. -/
theorem upsertRequest_encode_eq (u : UpsertRequest) (inst : Nat)
    (oracle : StatusOracle) :
    u.encode inst oracle =
      if u.id.contains 0 then none
      else if u.content.contains 0 then none
      else some
        { calls := [.lcb_cmdstore_create .LCB_STORE_UPSERT,
              .lcb_cmdstore_key ⟨u.id ++ [0]⟩ u.id.length,
              .lcb_cmdstore_flags u.flags,
              .lcb_cmdstore_value ⟨u.content ++ [0]⟩ u.content.length]
            ++ (match u.options.bind UpsertOptions.timeout with
                | some t => [.lcb_cmdstore_timeout (u32cast t.as_millis)]
                | none => [])
            ++ [.lcb_store inst (boxIntoRaw (.mutSender u.sender))]
          dropped := [.cstr ⟨u.id ++ [0]⟩] } := by
  unfold UpsertRequest.encode cstringNew
  cases h : u.id.contains 0 with
  | false =>
    cases h2 : u.content.contains 0 with
    | false =>
      simp only [h, h2, Bool.false_eq_true, if_false]
      cases ho : u.options with
      | none => rfl
      | some o => cases o.timeout <;> simp [Option.bind]
    | true => simp [h, h2]
  | true => simp [h]

/-- Closed form of `InsertRequest.encode`. -/
theorem insertRequest_encode_eq (u : InsertRequest) (inst : Nat)
    (oracle : StatusOracle) :
    u.encode inst oracle =
      if u.id.contains 0 then none
      else if u.content.contains 0 then none
      else some
        { calls := [.lcb_cmdstore_create .LCB_STORE_ADD,
              .lcb_cmdstore_key ⟨u.id ++ [0]⟩ u.id.length,
              .lcb_cmdstore_flags u.flags,
              .lcb_cmdstore_value ⟨u.content ++ [0]⟩ u.content.length]
            ++ (match u.options.bind InsertOptions.timeout with
                | some t => [.lcb_cmdstore_timeout (u32cast t.as_millis)]
                | none => [])
            ++ [.lcb_store inst (boxIntoRaw (.mutSender u.sender))]
          dropped := [.cstr ⟨u.id ++ [0]⟩] } := by
  unfold InsertRequest.encode cstringNew
  cases h : u.id.contains 0 with
  | false =>
    cases h2 : u.content.contains 0 with
    | false =>
      simp only [h, h2, Bool.false_eq_true, if_false]
      cases ho : u.options with
      | none => rfl
      | some o => cases o.timeout <;> simp [Option.bind]
    | true => simp [h, h2]
  | true => simp [h]

/-- Closed form of `ReplaceRequest.encode`. -/
theorem replaceRequest_encode_eq (u : ReplaceRequest) (inst : Nat)
    (oracle : StatusOracle) :
    u.encode inst oracle =
      if u.id.contains 0 then none
      else if u.content.contains 0 then none
      else some
        { calls := [.lcb_cmdstore_create .LCB_STORE_REPLACE,
              .lcb_cmdstore_key ⟨u.id ++ [0]⟩ u.id.length,
              .lcb_cmdstore_flags u.flags,
              .lcb_cmdstore_value ⟨u.content ++ [0]⟩ u.content.length]
            ++ (match u.options.bind ReplaceOptions.timeout with
                | some t => [.lcb_cmdstore_timeout (u32cast t.as_millis)]
                | none => [])
            ++ [.lcb_store inst (boxIntoRaw (.mutSender u.sender))]
          dropped := [.cstr ⟨u.id ++ [0]⟩] } := by
  unfold ReplaceRequest.encode cstringNew
  cases h : u.id.contains 0 with
  | false =>
    cases h2 : u.content.contains 0 with
    | false =>
      simp only [h, h2, Bool.false_eq_true, if_false]
      cases ho : u.options with
      | none => rfl
      | some o => cases o.timeout <;> simp [Option.bind]
    | true => simp [h, h2]
  | true => simp [h]

/-- Closed form of `RemoveRequest.encode`. -/
theorem removeRequest_encode_eq (g : RemoveRequest) (inst : Nat)
    (oracle : StatusOracle) :
    g.encode inst oracle =
      if g.id.contains 0 then none
      else some
        { calls := [.lcb_cmdremove_create,
              .lcb_cmdremove_key ⟨g.id ++ [0]⟩ g.id.length]
            ++ (match g.options.bind RemoveOptions.timeout with
                | some t => [.lcb_cmdremove_timeout (u32cast t.as_millis)]
                | none => [])
            ++ [.lcb_remove inst (boxIntoRaw (.mutSender g.sender))]
          dropped := [.cstr ⟨g.id ++ [0]⟩] } := by
  unfold RemoveRequest.encode cstringNew
  cases h : g.id.contains 0 with
  | false =>
    simp only [h, Bool.false_eq_true, if_false]
    cases ho : g.options with
    | none => rfl
    | some o => cases o.timeout <;> simp [Option.bind]
  | true => simp [h]

/-- The part of an `encode` run visible modulo addresses: the call trace
with instance handle and cookie pointer normalised away. -/
def observableTrace (x : Option EncodeEffect) : Option (List NativeCall) :=
  x.map (fun e => e.calls.map NativeCall.eraseAddrs)

/-- C1: for every request, `encode` issues exactly one native scheduling
call whose kind and fields match the request — `lcb_get` after
`lcb_cmdget_create` and the key setter for `GetRequest`; `lcb_store`
after `lcb_cmdstore_create` with operation `LCB_STORE_UPSERT`,
`LCB_STORE_ADD`, `LCB_STORE_REPLACE` and key, flags and value setters
for the three store requests; `lcb_remove` after `lcb_cmdremove_create`
and the key setter for `RemoveRequest` — with the command created
first, its fields set next, and the issuing call last. -/
theorem encode_issues_matching_native_call (inst : Nat)
    (oracle : StatusOracle) (r : AnyRequest) (eff : EncodeEffect)
    (h : r.encode inst oracle = some eff) :
    eff.calls =
      match r with
      | .get g =>
          [.lcb_cmdget_create, .lcb_cmdget_key ⟨g.id ++ [0]⟩ g.id.length]
            ++ (match g.options.bind GetOptions.timeout with
                | some t => [.lcb_cmdget_timeout (u32cast t.as_millis)]
                | none => [])
            ++ [.lcb_get inst (boxIntoRaw (.getSender g.sender))]
      | .upsert u =>
          [.lcb_cmdstore_create .LCB_STORE_UPSERT,
              .lcb_cmdstore_key ⟨u.id ++ [0]⟩ u.id.length,
              .lcb_cmdstore_flags u.flags,
              .lcb_cmdstore_value ⟨u.content ++ [0]⟩ u.content.length]
            ++ (match u.options.bind UpsertOptions.timeout with
                | some t => [.lcb_cmdstore_timeout (u32cast t.as_millis)]
                | none => [])
            ++ [.lcb_store inst (boxIntoRaw (.mutSender u.sender))]
      | .insert u =>
          [.lcb_cmdstore_create .LCB_STORE_ADD,
              .lcb_cmdstore_key ⟨u.id ++ [0]⟩ u.id.length,
              .lcb_cmdstore_flags u.flags,
              .lcb_cmdstore_value ⟨u.content ++ [0]⟩ u.content.length]
            ++ (match u.options.bind InsertOptions.timeout with
                | some t => [.lcb_cmdstore_timeout (u32cast t.as_millis)]
                | none => [])
            ++ [.lcb_store inst (boxIntoRaw (.mutSender u.sender))]
      | .replace u =>
          [.lcb_cmdstore_create .LCB_STORE_REPLACE,
              .lcb_cmdstore_key ⟨u.id ++ [0]⟩ u.id.length,
              .lcb_cmdstore_flags u.flags,
              .lcb_cmdstore_value ⟨u.content ++ [0]⟩ u.content.length]
            ++ (match u.options.bind ReplaceOptions.timeout with
                | some t => [.lcb_cmdstore_timeout (u32cast t.as_millis)]
                | none => [])
            ++ [.lcb_store inst (boxIntoRaw (.mutSender u.sender))]
      | .remove m =>
          [.lcb_cmdremove_create,
              .lcb_cmdremove_key ⟨m.id ++ [0]⟩ m.id.length]
            ++ (match m.options.bind RemoveOptions.timeout with
                | some t => [.lcb_cmdremove_timeout (u32cast t.as_millis)]
                | none => [])
            ++ [.lcb_remove inst (boxIntoRaw (.mutSender m.sender))] := by
  cases r with
  | get g =>
    simp only [AnyRequest.encode, getRequest_encode_eq] at h
    split at h
    · exact Option.noConfusion h
    · have he := Option.some.inj h
      subst he
      rfl
  | upsert u =>
    simp only [AnyRequest.encode, upsertRequest_encode_eq] at h
    split at h
    · exact Option.noConfusion h
    · split at h
      · exact Option.noConfusion h
      · have he := Option.some.inj h
        subst he
        rfl
  | insert u =>
    simp only [AnyRequest.encode, insertRequest_encode_eq] at h
    split at h
    · exact Option.noConfusion h
    · split at h
      · exact Option.noConfusion h
      · have he := Option.some.inj h
        subst he
        rfl
  | replace u =>
    simp only [AnyRequest.encode, replaceRequest_encode_eq] at h
    split at h
    · exact Option.noConfusion h
    · split at h
      · exact Option.noConfusion h
      · have he := Option.some.inj h
        subst he
        rfl
  | remove m =>
    simp only [AnyRequest.encode, removeRequest_encode_eq] at h
    split at h
    · exact Option.noConfusion h
    · have he := Option.some.inj h
      subst he
      rfl

/-- Witness for C1: the theorem applied to a concrete get request. -/
theorem encode_issues_matching_native_call_witness :
    (EncodeEffect.mk
      [.lcb_cmdget_create, .lcb_cmdget_key ⟨[1, 2, 0]⟩ 2,
        .lcb_get 7 (boxIntoRaw (.getSender ⟨0⟩))]
      [.cstr ⟨[1, 2, 0]⟩]).calls =
      [.lcb_cmdget_create, .lcb_cmdget_key ⟨[1, 2, 0]⟩ 2,
        .lcb_get 7 (boxIntoRaw (.getSender ⟨0⟩))] :=
  encode_issues_matching_native_call 7 (fun _ => 0)
    (.get (GetRequest.new ⟨0⟩ [1, 2] none)) _ rfl

/-- C2: for every request type, `encode` panics (models as `none`) if
and only if the id bytes contain a NUL byte, or, for the three store
request types, the content bytes contain a NUL byte; otherwise it
completes. -/
theorem encode_panics_iff_nul_byte (r : AnyRequest) (inst : Nat)
    (oracle : StatusOracle) :
    r.encode inst oracle = none ↔
      r.idBytes.contains 0 = true ∨
        ∃ c, r.contentBytes = some c ∧ c.contains 0 = true := by
  cases r with
  | get g =>
    cases h : g.id.contains 0 <;>
      simp [AnyRequest.encode, getRequest_encode_eq, AnyRequest.idBytes,
        AnyRequest.contentBytes, h]
  | upsert u =>
    cases h : u.id.contains 0 <;> cases h2 : u.content.contains 0 <;>
      simp_all [AnyRequest.encode, upsertRequest_encode_eq, AnyRequest.idBytes,
        AnyRequest.contentBytes]
  | insert u =>
    cases h : u.id.contains 0 <;> cases h2 : u.content.contains 0 <;>
      simp_all [AnyRequest.encode, insertRequest_encode_eq, AnyRequest.idBytes,
        AnyRequest.contentBytes]
  | replace u =>
    cases h : u.id.contains 0 <;> cases h2 : u.content.contains 0 <;>
      simp_all [AnyRequest.encode, replaceRequest_encode_eq, AnyRequest.idBytes,
        AnyRequest.contentBytes]
  | remove m =>
    cases h : m.id.contains 0 <;>
      simp [AnyRequest.encode, removeRequest_encode_eq, AnyRequest.idBytes,
        AnyRequest.contentBytes, h]

/-- C5: every `encode` run discards the status codes the native calls
return — its entire observable behaviour is independent of the status
oracle, so no status is inspected, no retry happens, and the (unit)
result never varies with them. -/
theorem encode_discards_native_statuses (r : AnyRequest) (inst : Nat)
    (o1 o2 : StatusOracle) : r.encode inst o1 = r.encode inst o2 := by
  cases r <;> rfl

/-- C6: each of the five constructors `new` stores its arguments
verbatim in the corresponding fields of the request it returns. -/
theorem new_stores_arguments_verbatim :
    (∀ s i o, GetRequest.new s i o = ⟨s, i, o⟩) ∧
    (∀ s i c f o, UpsertRequest.new s i c f o = ⟨s, i, c, f, o⟩) ∧
    (∀ s i c f o, InsertRequest.new s i c f o = ⟨s, i, c, f, o⟩) ∧
    (∀ s i c f o, ReplaceRequest.new s i c f o = ⟨s, i, c, f, o⟩) ∧
    (∀ s i o, RemoveRequest.new s i o = ⟨s, i, o⟩) :=
  ⟨fun _ _ _ => rfl, fun _ _ _ _ _ => rfl, fun _ _ _ _ _ => rfl,
    fun _ _ _ _ _ => rfl, fun _ _ _ => rfl⟩

/-- The issuing (scheduling) call a request leads to, with its cookie:
the native call of the matching kind whose cookie is the raw pointer
obtained from boxing the sender of the request. -/
def AnyRequest.issueCall (r : AnyRequest) (inst : Nat) : NativeCall :=
  match r with
  | .get g => .lcb_get inst (boxIntoRaw (.getSender g.sender))
  | .upsert u => .lcb_store inst (boxIntoRaw (.mutSender u.sender))
  | .insert u => .lcb_store inst (boxIntoRaw (.mutSender u.sender))
  | .replace u => .lcb_store inst (boxIntoRaw (.mutSender u.sender))
  | .remove m => .lcb_remove inst (boxIntoRaw (.mutSender m.sender))

/-- C3: the cookie passed to the issuing native call is exactly the raw
pointer produced by `Box::into_raw` on the boxed completion sender taken
from the request; the issuing call is the last action of `encode`
(nothing uses the sender afterwards) and the sender is not among the
resources `encode` drops. -/
theorem cookie_is_leaked_sender (r : AnyRequest) (inst : Nat)
    (oracle : StatusOracle) (eff : EncodeEffect)
    (h : r.encode inst oracle = some eff) :
    eff.calls.getLast? = some (r.issueCall inst) ∧
    r.senderOwned ∉ eff.dropped := by
  cases r with
  | get g =>
    simp only [AnyRequest.encode, getRequest_encode_eq] at h
    split at h
    · exact Option.noConfusion h
    · have he := Option.some.inj h
      subst he
      refine ⟨?_, ?_⟩
      · cases g.options.bind GetOptions.timeout <;> rfl
      · simp [AnyRequest.senderOwned]
  | upsert u =>
    simp only [AnyRequest.encode, upsertRequest_encode_eq] at h
    split at h
    · exact Option.noConfusion h
    · split at h
      · exact Option.noConfusion h
      · have he := Option.some.inj h
        subst he
        refine ⟨?_, ?_⟩
        · cases u.options.bind UpsertOptions.timeout <;> rfl
        · simp [AnyRequest.senderOwned]
  | insert u =>
    simp only [AnyRequest.encode, insertRequest_encode_eq] at h
    split at h
    · exact Option.noConfusion h
    · split at h
      · exact Option.noConfusion h
      · have he := Option.some.inj h
        subst he
        refine ⟨?_, ?_⟩
        · cases u.options.bind InsertOptions.timeout <;> rfl
        · simp [AnyRequest.senderOwned]
  | replace u =>
    simp only [AnyRequest.encode, replaceRequest_encode_eq] at h
    split at h
    · exact Option.noConfusion h
    · split at h
      · exact Option.noConfusion h
      · have he := Option.some.inj h
        subst he
        refine ⟨?_, ?_⟩
        · cases u.options.bind ReplaceOptions.timeout <;> rfl
        · simp [AnyRequest.senderOwned]
  | remove m =>
    simp only [AnyRequest.encode, removeRequest_encode_eq] at h
    split at h
    · exact Option.noConfusion h
    · have he := Option.some.inj h
      subst he
      refine ⟨?_, ?_⟩
      · cases m.options.bind RemoveOptions.timeout <;> rfl
      · simp [AnyRequest.senderOwned]

/-- Witness for C3: the theorem applied to a concrete remove request. -/
theorem cookie_is_leaked_sender_witness :
    (EncodeEffect.mk
      [.lcb_cmdremove_create, .lcb_cmdremove_key ⟨[3, 0]⟩ 1,
        .lcb_remove 2 (boxIntoRaw (.mutSender ⟨1⟩))]
      [.cstr ⟨[3, 0]⟩]).calls.getLast? =
        some (AnyRequest.issueCall (.remove (RemoveRequest.new ⟨1⟩ [3] none)) 2) ∧
    AnyRequest.senderOwned (.remove (RemoveRequest.new ⟨1⟩ [3] none)) ∉
      (EncodeEffect.mk
        [.lcb_cmdremove_create, .lcb_cmdremove_key ⟨[3, 0]⟩ 1,
          .lcb_remove 2 (boxIntoRaw (.mutSender ⟨1⟩))]
        [.cstr ⟨[3, 0]⟩]).dropped :=
  cookie_is_leaked_sender (.remove (RemoveRequest.new ⟨1⟩ [3] none)) 2
    (fun _ => 0) _ rfl

/-- C7: the `InstanceRequest` dispatch covers exactly the five key-value
operations (every request is a get, upsert, insert, replace or remove),
and each one is a one-shot marshal: the trace starts with the command
constructor, ends with the issuing call, and everything in between is
neither a constructor nor an issuing call (only field setters). -/
theorem trait_covers_exactly_five_marshal_ops :
    (∀ r : AnyRequest,
      (∃ g, r = .get g) ∨ (∃ u, r = .upsert u) ∨ (∃ n, r = .insert n) ∨
        (∃ p, r = .replace p) ∨ (∃ m, r = .remove m)) ∧
    (∀ (r : AnyRequest) (inst : Nat) (oracle : StatusOracle)
        (eff : EncodeEffect), r.encode inst oracle = some eff →
      eff.calls.head?.map NativeCall.isCreate = some true ∧
      eff.calls.getLast?.map NativeCall.isIssue = some true ∧
      ∀ c ∈ eff.calls.dropLast.tail, c.isCreate = false ∧ c.isIssue = false) := by
  constructor
  · intro r
    cases r with
    | get g => exact Or.inl ⟨g, rfl⟩
    | upsert u => exact Or.inr (Or.inl ⟨u, rfl⟩)
    | insert u => exact Or.inr (Or.inr (Or.inl ⟨u, rfl⟩))
    | replace u => exact Or.inr (Or.inr (Or.inr (Or.inl ⟨u, rfl⟩)))
    | remove m => exact Or.inr (Or.inr (Or.inr (Or.inr ⟨m, rfl⟩)))
  · intro r inst oracle eff h
    cases r with
    | get g =>
      simp only [AnyRequest.encode, getRequest_encode_eq] at h
      split at h
      · exact Option.noConfusion h
      · have he := Option.some.inj h
        subst he
        cases g.options.bind GetOptions.timeout with
        | none =>
          refine ⟨rfl, rfl, ?_⟩
          intro c hc
          simp at hc
          subst hc
          exact ⟨rfl, rfl⟩
        | some t =>
          refine ⟨rfl, rfl, ?_⟩
          intro c hc
          simp at hc
          rcases hc with rfl | rfl <;> exact ⟨rfl, rfl⟩
    | upsert u =>
      simp only [AnyRequest.encode, upsertRequest_encode_eq] at h
      split at h
      · exact Option.noConfusion h
      · split at h
        · exact Option.noConfusion h
        · have he := Option.some.inj h
          subst he
          cases u.options.bind UpsertOptions.timeout with
          | none =>
            refine ⟨rfl, rfl, ?_⟩
            intro c hc
            simp at hc
            rcases hc with rfl | rfl | rfl <;> exact ⟨rfl, rfl⟩
          | some t =>
            refine ⟨rfl, rfl, ?_⟩
            intro c hc
            simp at hc
            rcases hc with rfl | rfl | rfl | rfl <;> exact ⟨rfl, rfl⟩
    | insert u =>
      simp only [AnyRequest.encode, insertRequest_encode_eq] at h
      split at h
      · exact Option.noConfusion h
      · split at h
        · exact Option.noConfusion h
        · have he := Option.some.inj h
          subst he
          cases u.options.bind InsertOptions.timeout with
          | none =>
            refine ⟨rfl, rfl, ?_⟩
            intro c hc
            simp at hc
            rcases hc with rfl | rfl | rfl <;> exact ⟨rfl, rfl⟩
          | some t =>
            refine ⟨rfl, rfl, ?_⟩
            intro c hc
            simp at hc
            rcases hc with rfl | rfl | rfl | rfl <;> exact ⟨rfl, rfl⟩
    | replace u =>
      simp only [AnyRequest.encode, replaceRequest_encode_eq] at h
      split at h
      · exact Option.noConfusion h
      · split at h
        · exact Option.noConfusion h
        · have he := Option.some.inj h
          subst he
          cases u.options.bind ReplaceOptions.timeout with
          | none =>
            refine ⟨rfl, rfl, ?_⟩
            intro c hc
            simp at hc
            rcases hc with rfl | rfl | rfl <;> exact ⟨rfl, rfl⟩
          | some t =>
            refine ⟨rfl, rfl, ?_⟩
            intro c hc
            simp at hc
            rcases hc with rfl | rfl | rfl | rfl <;> exact ⟨rfl, rfl⟩
    | remove m =>
      simp only [AnyRequest.encode, removeRequest_encode_eq] at h
      split at h
      · exact Option.noConfusion h
      · have he := Option.some.inj h
        subst he
        cases m.options.bind RemoveOptions.timeout with
        | none =>
          refine ⟨rfl, rfl, ?_⟩
          intro c hc
          simp at hc
          subst hc
          exact ⟨rfl, rfl⟩
        | some t =>
          refine ⟨rfl, rfl, ?_⟩
          intro c hc
          simp at hc
          rcases hc with rfl | rfl <;> exact ⟨rfl, rfl⟩

/-- Witness for C7: the trace-shape half of the theorem applied to a
concrete remove request. -/
theorem trait_covers_exactly_five_marshal_ops_witness :
    (EncodeEffect.mk
      [.lcb_cmdremove_create, .lcb_cmdremove_key ⟨[9, 0]⟩ 1,
        .lcb_remove 4 (boxIntoRaw (.mutSender ⟨2⟩))]
      [.cstr ⟨[9, 0]⟩]).calls.head?.map NativeCall.isCreate = some true :=
  (trait_covers_exactly_five_marshal_ops.2
    (.remove (RemoveRequest.new ⟨2⟩ [9] none)) 4 (fun _ => 0) _ rfl).1

/-- C8: the key length passed to the native key setter equals the byte
length of the original id (captured before the `CString` conversion, so
it excludes the appended NUL terminator that is present in the passed
buffer), and for the store operations the value length passed to
`lcb_cmdstore_value` equals the byte length of the original content. -/
theorem key_and_value_lengths (r : AnyRequest) (inst : Nat)
    (oracle : StatusOracle) (eff : EncodeEffect)
    (h : r.encode inst oracle = some eff) :
    eff.calls.filterMap NativeCall.keyArgs =
      [(⟨r.idBytes ++ [0]⟩, r.idBytes.length)] ∧
    eff.calls.filterMap NativeCall.valueArgs =
      (match r.contentBytes with
        | some c => [(⟨c ++ [0]⟩, c.length)]
        | none => []) := by
  cases r with
  | get g =>
    simp only [AnyRequest.encode, getRequest_encode_eq] at h
    split at h
    · exact Option.noConfusion h
    · have he := Option.some.inj h
      subst he
      cases g.options.bind GetOptions.timeout <;> exact ⟨rfl, rfl⟩
  | upsert u =>
    simp only [AnyRequest.encode, upsertRequest_encode_eq] at h
    split at h
    · exact Option.noConfusion h
    · split at h
      · exact Option.noConfusion h
      · have he := Option.some.inj h
        subst he
        cases u.options.bind UpsertOptions.timeout <;> exact ⟨rfl, rfl⟩
  | insert u =>
    simp only [AnyRequest.encode, insertRequest_encode_eq] at h
    split at h
    · exact Option.noConfusion h
    · split at h
      · exact Option.noConfusion h
      · have he := Option.some.inj h
        subst he
        cases u.options.bind InsertOptions.timeout <;> exact ⟨rfl, rfl⟩
  | replace u =>
    simp only [AnyRequest.encode, replaceRequest_encode_eq] at h
    split at h
    · exact Option.noConfusion h
    · split at h
      · exact Option.noConfusion h
      · have he := Option.some.inj h
        subst he
        cases u.options.bind ReplaceOptions.timeout <;> exact ⟨rfl, rfl⟩
  | remove m =>
    simp only [AnyRequest.encode, removeRequest_encode_eq] at h
    split at h
    · exact Option.noConfusion h
    · have he := Option.some.inj h
      subst he
      cases m.options.bind RemoveOptions.timeout <;> exact ⟨rfl, rfl⟩

/-- Witness for C8: the theorem applied to a concrete upsert request. -/
theorem key_and_value_lengths_witness :
    (EncodeEffect.mk
      [.lcb_cmdstore_create .LCB_STORE_UPSERT,
        .lcb_cmdstore_key ⟨[1, 2, 0]⟩ 2, .lcb_cmdstore_flags 5,
        .lcb_cmdstore_value ⟨[3, 4, 5, 0]⟩ 3,
        .lcb_store 6 (boxIntoRaw (.mutSender ⟨0⟩))]
      [.cstr ⟨[1, 2, 0]⟩]).calls.filterMap NativeCall.keyArgs =
        [(⟨[1, 2, 0]⟩, 2)] ∧
    (EncodeEffect.mk
      [.lcb_cmdstore_create .LCB_STORE_UPSERT,
        .lcb_cmdstore_key ⟨[1, 2, 0]⟩ 2, .lcb_cmdstore_flags 5,
        .lcb_cmdstore_value ⟨[3, 4, 5, 0]⟩ 3,
        .lcb_store 6 (boxIntoRaw (.mutSender ⟨0⟩))]
      [.cstr ⟨[1, 2, 0]⟩]).calls.filterMap NativeCall.valueArgs =
        [(⟨[3, 4, 5, 0]⟩, 3)] :=
  key_and_value_lengths
    (.upsert (UpsertRequest.new ⟨0⟩ [1, 2] [3, 4, 5] 5 none)) 6
    (fun _ => 0) _ rfl

/-- C9: when a timeout is set, the millisecond value passed to the
native timeout setter is `Duration::as_millis` reduced modulo `2^32`
(the `as u32` cast), so counts of `2^32` milliseconds or more wrap
around. -/
theorem timeout_millis_truncated_mod_u32 (r : AnyRequest) (inst : Nat)
    (oracle : StatusOracle) (eff : EncodeEffect) (d : Duration)
    (h : r.encode inst oracle = some eff) (ht : r.timeoutOpt = some d) :
    eff.calls.filterMap NativeCall.timeoutArg = [d.as_millis % 2 ^ 32] := by
  cases r with
  | get g =>
    simp only [AnyRequest.encode, getRequest_encode_eq] at h
    simp only [AnyRequest.timeoutOpt] at ht
    split at h
    · exact Option.noConfusion h
    · have he := Option.some.inj h
      subst he
      rw [ht]
      rfl
  | upsert u =>
    simp only [AnyRequest.encode, upsertRequest_encode_eq] at h
    simp only [AnyRequest.timeoutOpt] at ht
    split at h
    · exact Option.noConfusion h
    · split at h
      · exact Option.noConfusion h
      · have he := Option.some.inj h
        subst he
        rw [ht]
        rfl
  | insert u =>
    simp only [AnyRequest.encode, insertRequest_encode_eq] at h
    simp only [AnyRequest.timeoutOpt] at ht
    split at h
    · exact Option.noConfusion h
    · split at h
      · exact Option.noConfusion h
      · have he := Option.some.inj h
        subst he
        rw [ht]
        rfl
  | replace u =>
    simp only [AnyRequest.encode, replaceRequest_encode_eq] at h
    simp only [AnyRequest.timeoutOpt] at ht
    split at h
    · exact Option.noConfusion h
    · split at h
      · exact Option.noConfusion h
      · have he := Option.some.inj h
        subst he
        rw [ht]
        rfl
  | remove m =>
    simp only [AnyRequest.encode, removeRequest_encode_eq] at h
    simp only [AnyRequest.timeoutOpt] at ht
    split at h
    · exact Option.noConfusion h
    · have he := Option.some.inj h
      subst he
      rw [ht]
      rfl

/-- Witness for C9: the theorem applied to a get request whose timeout
is exactly `2^32` milliseconds, which wraps to `0`. -/
theorem timeout_millis_truncated_mod_u32_witness :
    (EncodeEffect.mk
      [.lcb_cmdget_create, .lcb_cmdget_key ⟨[1, 0]⟩ 1,
        .lcb_cmdget_timeout 0, .lcb_get 0 (boxIntoRaw (.getSender ⟨0⟩))]
      [.cstr ⟨[1, 0]⟩]).calls.filterMap NativeCall.timeoutArg = [0] :=
  timeout_millis_truncated_mod_u32
    (.get (GetRequest.new ⟨0⟩ [1]
      (some ⟨some ⟨4294967, 296000000⟩⟩))) 0 (fun _ => 0) _
    ⟨4294967, 296000000⟩ rfl rfl

/-- C4: the optional timeout is the only branch in `encode`: the timeout
setter is called if and only if the options field of the request is `Some`
and the `timeout()` of that value is `Some`, and two requests equal in every
field except options produce the same trace apart from the timeout call
(and drop the same resources). -/
theorem timeout_is_only_branch (r1 r2 : AnyRequest) (inst : Nat)
    (oracle : StatusOracle) (eff : EncodeEffect)
    (hsame : r1.sameModuloOptions r2)
    (h : r1.encode inst oracle = some eff) :
    (eff.calls.any NativeCall.isTimeout = true ↔
      r1.timeoutOpt.isSome = true) ∧
    ∃ eff2, r2.encode inst oracle = some eff2 ∧
      eff.calls.filter (fun c => !c.isTimeout) =
        eff2.calls.filter (fun c => !c.isTimeout) ∧
      eff.dropped = eff2.dropped := by
  cases r1 with
  | get a =>
    cases r2 with
    | get b =>
      obtain ⟨hs, hid⟩ := hsame
      simp only [AnyRequest.encode, getRequest_encode_eq] at h ⊢
      rw [← hid, ← hs]
      cases hid0 : a.id.contains 0 with
      | true =>
        rw [hid0] at h
        exact Option.noConfusion h
      | false =>
        simp only [hid0] at h
        simp only [Bool.false_eq_true, if_false] at h
        have he := Option.some.inj h
        subst he
        constructor
        · cases htc : a.options.bind GetOptions.timeout <;>
            simp [htc, AnyRequest.timeoutOpt, NativeCall.isTimeout]
        · refine ⟨_, rfl, ?_, rfl⟩
          cases htc : a.options.bind GetOptions.timeout <;>
            cases htc2 : b.options.bind GetOptions.timeout <;>
              simp [htc, htc2, NativeCall.isTimeout]
    | upsert b => exact False.elim hsame
    | insert b => exact False.elim hsame
    | replace b => exact False.elim hsame
    | remove b => exact False.elim hsame
  | upsert a =>
    cases r2 with
    | get b => exact False.elim hsame
    | upsert b =>
      obtain ⟨hs, hid, hcon, hfl⟩ := hsame
      simp only [AnyRequest.encode, upsertRequest_encode_eq] at h ⊢
      rw [← hid, ← hs, ← hcon, ← hfl]
      cases hid0 : a.id.contains 0 with
      | true =>
        rw [hid0] at h
        exact Option.noConfusion h
      | false =>
        cases hc0 : a.content.contains 0 with
        | true =>
          rw [hid0, hc0] at h
          exact Option.noConfusion h
        | false =>
          simp only [hid0, hc0] at h
          simp only [Bool.false_eq_true, if_false] at h
          have he := Option.some.inj h
          subst he
          constructor
          · cases htc : a.options.bind UpsertOptions.timeout <;>
              simp [htc, AnyRequest.timeoutOpt, NativeCall.isTimeout]
          · refine ⟨_, rfl, ?_, rfl⟩
            cases htc : a.options.bind UpsertOptions.timeout <;>
              cases htc2 : b.options.bind UpsertOptions.timeout <;>
                simp [htc, htc2, NativeCall.isTimeout]
    | insert b => exact False.elim hsame
    | replace b => exact False.elim hsame
    | remove b => exact False.elim hsame
  | insert a =>
    cases r2 with
    | get b => exact False.elim hsame
    | upsert b => exact False.elim hsame
    | insert b =>
      obtain ⟨hs, hid, hcon, hfl⟩ := hsame
      simp only [AnyRequest.encode, insertRequest_encode_eq] at h ⊢
      rw [← hid, ← hs, ← hcon, ← hfl]
      cases hid0 : a.id.contains 0 with
      | true =>
        rw [hid0] at h
        exact Option.noConfusion h
      | false =>
        cases hc0 : a.content.contains 0 with
        | true =>
          rw [hid0, hc0] at h
          exact Option.noConfusion h
        | false =>
          simp only [hid0, hc0] at h
          simp only [Bool.false_eq_true, if_false] at h
          have he := Option.some.inj h
          subst he
          constructor
          · cases htc : a.options.bind InsertOptions.timeout <;>
              simp [htc, AnyRequest.timeoutOpt, NativeCall.isTimeout]
          · refine ⟨_, rfl, ?_, rfl⟩
            cases htc : a.options.bind InsertOptions.timeout <;>
              cases htc2 : b.options.bind InsertOptions.timeout <;>
                simp [htc, htc2, NativeCall.isTimeout]
    | replace b => exact False.elim hsame
    | remove b => exact False.elim hsame
  | replace a =>
    cases r2 with
    | get b => exact False.elim hsame
    | upsert b => exact False.elim hsame
    | insert b => exact False.elim hsame
    | replace b =>
      obtain ⟨hs, hid, hcon, hfl⟩ := hsame
      simp only [AnyRequest.encode, replaceRequest_encode_eq] at h ⊢
      rw [← hid, ← hs, ← hcon, ← hfl]
      cases hid0 : a.id.contains 0 with
      | true =>
        rw [hid0] at h
        exact Option.noConfusion h
      | false =>
        cases hc0 : a.content.contains 0 with
        | true =>
          rw [hid0, hc0] at h
          exact Option.noConfusion h
        | false =>
          simp only [hid0, hc0] at h
          simp only [Bool.false_eq_true, if_false] at h
          have he := Option.some.inj h
          subst he
          constructor
          · cases htc : a.options.bind ReplaceOptions.timeout <;>
              simp [htc, AnyRequest.timeoutOpt, NativeCall.isTimeout]
          · refine ⟨_, rfl, ?_, rfl⟩
            cases htc : a.options.bind ReplaceOptions.timeout <;>
              cases htc2 : b.options.bind ReplaceOptions.timeout <;>
                simp [htc, htc2, NativeCall.isTimeout]
    | remove b => exact False.elim hsame
  | remove a =>
    cases r2 with
    | get b => exact False.elim hsame
    | upsert b => exact False.elim hsame
    | insert b => exact False.elim hsame
    | replace b => exact False.elim hsame
    | remove b =>
      obtain ⟨hs, hid⟩ := hsame
      simp only [AnyRequest.encode, removeRequest_encode_eq] at h ⊢
      rw [← hid, ← hs]
      cases hid0 : a.id.contains 0 with
      | true =>
        rw [hid0] at h
        exact Option.noConfusion h
      | false =>
        simp only [hid0] at h
        simp only [Bool.false_eq_true, if_false] at h
        have he := Option.some.inj h
        subst he
        constructor
        · cases htc : a.options.bind RemoveOptions.timeout <;>
            simp [htc, AnyRequest.timeoutOpt, NativeCall.isTimeout]
        · refine ⟨_, rfl, ?_, rfl⟩
          cases htc : a.options.bind RemoveOptions.timeout <;>
            cases htc2 : b.options.bind RemoveOptions.timeout <;>
              simp [htc, htc2, NativeCall.isTimeout]

/-- Witness for C4: the timeout-iff half of the theorem applied to two
concrete get requests differing only in the options field. -/
theorem timeout_is_only_branch_witness :
    (EncodeEffect.mk
      [.lcb_cmdget_create, .lcb_cmdget_key ⟨[2, 0]⟩ 1,
        .lcb_cmdget_timeout 1000, .lcb_get 3 (boxIntoRaw (.getSender ⟨4⟩))]
      [.cstr ⟨[2, 0]⟩]).calls.any NativeCall.isTimeout = true ↔
      (AnyRequest.timeoutOpt
        (.get (GetRequest.new ⟨4⟩ [2] (some ⟨some ⟨1, 0⟩⟩)))).isSome = true :=
  (timeout_is_only_branch
    (.get (GetRequest.new ⟨4⟩ [2] (some ⟨some ⟨1, 0⟩⟩)))
    (.get (GetRequest.new ⟨4⟩ [2] none)) 3 (fun _ => 0) _
    ⟨rfl, rfl⟩ rfl).1

/-- C10: the function `encode` is deterministic in the data of the request: two requests
of the same type with equal id, content, flags and options (the sender,
the instance handle and the native status codes may all differ) issue
the same sequence of native calls up to the address-valued arguments. -/
theorem encode_deterministic_in_data (r1 r2 : AnyRequest) (i1 i2 : Nat)
    (o1 o2 : StatusOracle) (hsame : r1.sameData r2) :
    observableTrace (r1.encode i1 o1) = observableTrace (r2.encode i2 o2) := by
  cases r1 with
  | get a =>
    cases r2 with
    | get b =>
      obtain ⟨hid, hopt⟩ := hsame
      simp only [observableTrace, AnyRequest.encode, getRequest_encode_eq]
      rw [← hid, ← hopt]
      cases hid0 : a.id.contains 0 <;>
        cases htc : a.options.bind GetOptions.timeout <;>
          simp [hid0, htc, NativeCall.eraseAddrs]
    | upsert b => exact False.elim hsame
    | insert b => exact False.elim hsame
    | replace b => exact False.elim hsame
    | remove b => exact False.elim hsame
  | upsert a =>
    cases r2 with
    | get b => exact False.elim hsame
    | upsert b =>
      obtain ⟨hid, hcon, hfl, hopt⟩ := hsame
      simp only [observableTrace, AnyRequest.encode, upsertRequest_encode_eq]
      rw [← hid, ← hcon, ← hfl, ← hopt]
      cases hid0 : a.id.contains 0 <;>
        cases hc0 : a.content.contains 0 <;>
          cases htc : a.options.bind UpsertOptions.timeout <;>
            simp [hid0, hc0, htc, NativeCall.eraseAddrs]
    | insert b => exact False.elim hsame
    | replace b => exact False.elim hsame
    | remove b => exact False.elim hsame
  | insert a =>
    cases r2 with
    | get b => exact False.elim hsame
    | upsert b => exact False.elim hsame
    | insert b =>
      obtain ⟨hid, hcon, hfl, hopt⟩ := hsame
      simp only [observableTrace, AnyRequest.encode, insertRequest_encode_eq]
      rw [← hid, ← hcon, ← hfl, ← hopt]
      cases hid0 : a.id.contains 0 <;>
        cases hc0 : a.content.contains 0 <;>
          cases htc : a.options.bind InsertOptions.timeout <;>
            simp [hid0, hc0, htc, NativeCall.eraseAddrs]
    | replace b => exact False.elim hsame
    | remove b => exact False.elim hsame
  | replace a =>
    cases r2 with
    | get b => exact False.elim hsame
    | upsert b => exact False.elim hsame
    | insert b => exact False.elim hsame
    | replace b =>
      obtain ⟨hid, hcon, hfl, hopt⟩ := hsame
      simp only [observableTrace, AnyRequest.encode, replaceRequest_encode_eq]
      rw [← hid, ← hcon, ← hfl, ← hopt]
      cases hid0 : a.id.contains 0 <;>
        cases hc0 : a.content.contains 0 <;>
          cases htc : a.options.bind ReplaceOptions.timeout <;>
            simp [hid0, hc0, htc, NativeCall.eraseAddrs]
    | remove b => exact False.elim hsame
  | remove a =>
    cases r2 with
    | get b => exact False.elim hsame
    | upsert b => exact False.elim hsame
    | insert b => exact False.elim hsame
    | replace b => exact False.elim hsame
    | remove b =>
      obtain ⟨hid, hopt⟩ := hsame
      simp only [observableTrace, AnyRequest.encode, removeRequest_encode_eq]
      rw [← hid, ← hopt]
      cases hid0 : a.id.contains 0 <;>
        cases htc : a.options.bind RemoveOptions.timeout <;>
          simp [hid0, htc, NativeCall.eraseAddrs]

/-- Witness for C10: the theorem applied to two concrete upsert requests
that agree on the data fields but have different senders, different
instance handles and different status oracles. -/
theorem encode_deterministic_in_data_witness :
    observableTrace
      ((AnyRequest.upsert (UpsertRequest.new ⟨5⟩ [1] [2] 3 none)).encode 7
        (fun _ => 0)) =
    observableTrace
      ((AnyRequest.upsert (UpsertRequest.new ⟨9⟩ [1] [2] 3 none)).encode 8
        (fun _ => 1)) :=
  encode_deterministic_in_data
    (.upsert (UpsertRequest.new ⟨5⟩ [1] [2] 3 none))
    (.upsert (UpsertRequest.new ⟨9⟩ [1] [2] 3 none)) 7 8
    (fun _ => 0) (fun _ => 1) ⟨rfl, rfl, rfl, rfl⟩

end CouchbaseRs
